import Mathlib

/-!
Shallow embedding of the repository `wevertonms/dinamica_das_estruturas`
(files `load_cases.py` and `numeric_solutions.py`) over the reals, together
with theorems settling the frozen claims about its specification.

Conventions of the embedding:
* numpy arrays of reals become `Fin n → ℝ` (vectors) or
  `Matrix (Fin n) (Fin n) ℝ`; time grids become `List ℝ`;
* `np.cos`, `np.sin`, `np.sqrt`, `np.exp` become `Real.cos`, `Real.sin`,
  `Real.sqrt`, `Real.exp` (exact real arithmetic in place of IEEE doubles);
* `scipy.linalg.eigh(K, M)` is an external backend call: the embedding takes
  its result `(omega2, phi)` as an explicit argument (an oracle for the
  generalized eigendecomposition);
* `np.linalg.inv`/`np.linalg.solve` become multiplication by `Matrix.inv`
  (the nonsingular inverse, junk on singular input, matching the numpy
  precondition that the matrix be invertible);
* `np.empty` produces unspecified array contents, so each `np.empty` in the
  source becomes an explicit parameter holding the arbitrary initial
  contents of that array;
* Python methods that may in principle raise are embedded with an
  `Except SimError` codomain; a source path that raises nothing is a
  constant `.ok`.
-/

noncomputable section

namespace Dinamica

abbrev Vec (n : ℕ) := Fin n → ℝ
abbrev Mat (n : ℕ) := Matrix (Fin n) (Fin n) ℝ

/-- Error vocabulary of the specification's error-handling design
(§7 of the spec).  The source never raises any of these. -/
inductive SimError
  | invalidSystem
  | overdampedMode
  | invalidParameter
  | singularEffectiveStiffness
  deriving DecidableEq

/-- Embedding of `np.arange(start=0, stop, step)` in exact real arithmetic: the values
`k * step` for `k = 0, 1, ...`, of length `⌈stop / step⌉` (for positive
`step`; the empty list when `stop / step ≤ 0`). -/
def arange (stop step : ℝ) : List ℝ :=
  (List.range ⌈stop / step⌉₊).map fun (k : ℕ) => (k : ℝ) * step

/-- Structure `Harmonic(fo, omega)` from `load_cases.py`. -/
structure Harmonic where
  fo : ℝ
  omega : ℝ

/-- Method `Harmonic.load`: `fo * np.cos(omega * t)`. -/
def Harmonic.load (h : Harmonic) (t : ℝ) : ℝ :=
  h.fo * Real.cos (h.omega * t)

/-- Method `Harmonic.response`: closed-form damped single-mode response, scalar in
`t` (numpy broadcasts it over the grid; the embedding maps it). -/
def Harmonic.response (h : Harmonic) (omega_i ni_i up_i vp_i Fpi t : ℝ) : ℝ :=
  let omegad := Real.sqrt (omega_i ^ 2 - ni_i ^ 2)
  let Qi := (omega_i ^ 2 - h.omega ^ 2) * Fpi /
    ((omega_i ^ 2 - h.omega ^ 2) ^ 2 + 4 * ni_i ^ 2 * h.omega ^ 2)
  let Ri := (2 * ni_i * h.omega) * Fpi /
    ((omega_i ^ 2 - h.omega ^ 2) ^ 2 + 4 * ni_i ^ 2 * h.omega ^ 2)
  let C1 := up_i - Qi
  let C2 := (vp_i - (Ri * h.omega) + (ni_i * C1)) / omegad
  Real.exp (-ni_i * t) * (C1 * Real.cos (omegad * t) + C2 * Real.sin (omegad * t))
    + Qi * Real.cos (h.omega * t) + Ri * Real.sin (h.omega * t)

/-- Structure `Impulsive(fo, td)` from `load_cases.py`. -/
structure Impulsive where
  fo : ℝ
  td : ℝ

/-- Method `Impulsive.load`: `fo if t <= td else 0 * fo`. -/
def Impulsive.load (p : Impulsive) (t : ℝ) : ℝ :=
  if t ≤ p.td then p.fo else 0 * p.fo

/-- Method `Impulsive.response`: splits the grid into `t[t <= td]` and
`t[t > td]`, evaluates one closed-form branch on each, and returns
`[*Dp1, *Dp2]`. -/
def Impulsive.response (p : Impulsive) (Kp_i Fp_i omega_i : ℝ) (t : List ℝ) :
    List ℝ :=
  let t1 := t.filter fun x => decide (x ≤ p.td)
  let Dp1 := t1.map fun x => (Fp_i / Kp_i) * (1 - Real.cos (omega_i * x))
  let t2 := t.filter fun x => decide (p.td < x)
  let Dp2 := t2.map fun x => (Fp_i / Kp_i) *
    ((1 - Real.cos (omega_i * p.td)) * Real.cos (omega_i * (x - p.td))
      + Real.sin (omega_i * p.td) * Real.sin (omega_i * (x - p.td)))
  Dp1 ++ Dp2

/-- Structure `Ramp(fo, tr)` from `load_cases.py`. -/
structure Ramp where
  fo : ℝ
  tr : ℝ

/-- Method `Ramp.load`: `(fo * t / tr) if t <= tr else fo`. -/
def Ramp.load (r : Ramp) (t : ℝ) : ℝ :=
  if t ≤ r.tr then r.fo * t / r.tr else r.fo

/-- Method `Ramp.response`: splits the grid into `t[t <= tr]` and `t[t > tr]`,
evaluates one closed-form branch on each, and returns `[*Dp1, *Dp2]`. -/
def Ramp.response (r : Ramp) (Kp_i Fp_i omega_i : ℝ) (t : List ℝ) : List ℝ :=
  let t1 := t.filter fun x => decide (x ≤ r.tr)
  let Dp1 := t1.map fun x => (Fp_i / Kp_i) *
    ((x / r.tr) - (1 / (omega_i * r.tr)) * Real.sin (omega_i * x))
  let t2 := t.filter fun x => decide (r.tr < x)
  let Dp2 := t2.map fun x => (Fp_i / Kp_i) *
    (1 + (1 / (omega_i * r.tr)) *
      (Real.sin (omega_i * (x - r.tr)) - Real.sin (omega_i * x)))
  Dp1 ++ Dp2

/-- Result of the external call `scipy.linalg.eigh(K, M)`: the eigenvalues
`omega2` and the eigenvector matrix `phi` (columns are eigenvectors).  The
embedding takes it as an argument since the eigensolver is an external
backend. -/
structure EighResult (n : ℕ) where
  omega2 : Fin n → ℝ
  phi : Mat n

/-- Method `Harmonic.modal_superposition(M, C, K, u0, v0, fo, sim_time, num_steps)`
from `load_cases.py`.  The returned displacement matrix is the function
`j k ↦ u[j, k]`; its meaningful columns are `k <` length of the grid.
The source raises no exception on any path, so the result is always `.ok`. -/
def Harmonic.modal_superposition {n : ℕ} (h : Harmonic) (eigh : EighResult n)
    (M C K : Mat n) (u0 v0 fo : Vec n) (sim_time : ℝ) (num_steps : ℕ) :
    Except SimError (List ℝ × (Fin n → ℕ → ℝ)) :=
  let omega2 := eigh.omega2
  let phi := eigh.phi
  let omega_i := fun i => Real.sqrt (omega2 i)
  let Mp := phi.transpose * M * phi
  let Cp := phi.transpose * C * phi
  let Fp_i := phi.transpose.mulVec fo
  let up := (phi.transpose * M).mulVec u0
  let vp := (phi.transpose * M).mulVec v0
  let ni_i := fun i => Cp.diag i / (2 * Mp.diag i)
  let t := arange sim_time (sim_time / num_steps)
  let step := fun (i : Fin n) (k : ℕ) =>
    h.response (omega_i i) (ni_i i) (up i) (vp i) (Fp_i i) (t.getD k 0)
  let u := fun (j : Fin n) (k : ℕ) => ∑ i, phi j i * step i k
  .ok (t, u)

/-- Method `Impulsive.modal_superposition(M, K, u0, fo, sim_time, num_steps)` from
`load_cases.py`.  `u0` is a parameter of the source function but every use
of it in the body is commented out. -/
def Impulsive.modal_superposition {n : ℕ} (p : Impulsive) (eigh : EighResult n)
    (M K : Mat n) (u0 fo : Vec n) (sim_time : ℝ) (num_steps : ℕ) :
    Except SimError (List ℝ × (Fin n → ℕ → ℝ)) :=
  let omega2 := eigh.omega2
  let phi := eigh.phi
  let omega_i := fun i => Real.sqrt (omega2 i)
  let Kp_i := phi.transpose * K * phi
  let Fp_i := phi.transpose.mulVec fo
  let t := arange sim_time (sim_time / num_steps)
  let step := fun (i : Fin n) =>
    p.response (Kp_i i i) (Fp_i i) (omega_i i) t
  let u := fun (j : Fin n) (k : ℕ) => ∑ i, phi j i * (step i).getD k 0
  .ok (t, u)

/-- Method `Ramp.modal_superposition(M, K, fo, sim_time, num_steps)` from
`load_cases.py`.  Unlike `Impulsive.modal_superposition`, the source
signature has no `u0` parameter at all (although its docstring documents
one). -/
def Ramp.modal_superposition {n : ℕ} (r : Ramp) (eigh : EighResult n)
    (M K : Mat n) (fo : Vec n) (sim_time : ℝ) (num_steps : ℕ) :
    Except SimError (List ℝ × (Fin n → ℕ → ℝ)) :=
  let omega2 := eigh.omega2
  let phi := eigh.phi
  let omega_i := fun i => Real.sqrt (omega2 i)
  let Kp_i := phi.transpose * K * phi
  let Fp_i := phi.transpose.mulVec fo
  let t := arange sim_time (sim_time / num_steps)
  let step := fun (i : Fin n) =>
    r.response (Kp_i i i) (Fp_i i) (omega_i i) t
  let u := fun (j : Fin n) (k : ℕ) => ∑ i, phi j i * (step i).getD k 0
  .ok (t, u)

/-- The time grid of an `Except`-wrapped modal-superposition result
(`[]` on an error, which the source never produces). -/
def resultGrid {n : ℕ} : Except SimError (List ℝ × (Fin n → ℕ → ℝ)) → List ℝ
  | .ok r => r.1
  | .error _ => []

/-- Argument bundle for `newmark_linear(M, C, K, fext, uo, vo, tf, dt, gama,
beta)` from `numeric_solutions.py`.  `eu`, `ev`, `ea` hold the unspecified
initial contents of the three `np.empty((len(uo), len(t)))` arrays the
source allocates for `u`, `v`, `a` (column `k` of array `u` is `eu k`). -/
structure NewmarkIn (n : ℕ) where
  M : Mat n
  C : Mat n
  K : Mat n
  fext : ℝ → Vec n
  uo : Vec n
  vo : Vec n
  tf : ℝ
  dt : ℝ
  gama : ℝ
  beta : ℝ
  eu : ℕ → Vec n
  ev : ℕ → Vec n
  ea : ℕ → Vec n

namespace NewmarkIn

variable {n : ℕ}

/-- Constant `a0 = 1 / (dt ** 2 * beta)` -/
def c0 (s : NewmarkIn n) : ℝ := 1 / (s.dt ^ 2 * s.beta)

/-- Constant `a1 = gama / (dt * beta)` -/
def c1 (s : NewmarkIn n) : ℝ := s.gama / (s.dt * s.beta)

/-- Constant `a2 = 1 / (dt * beta)` -/
def c2 (s : NewmarkIn n) : ℝ := 1 / (s.dt * s.beta)

/-- Constant `a3 = 1 / (2 * beta) - 1` -/
def c3 (s : NewmarkIn n) : ℝ := 1 / (2 * s.beta) - 1

/-- Constant `a4 = gama / beta - 1` -/
def c4 (s : NewmarkIn n) : ℝ := s.gama / s.beta - 1

/-- Constant `a5 = dt * (gama / (2 * beta) - 1)` -/
def c5 (s : NewmarkIn n) : ℝ := s.dt * (s.gama / (2 * s.beta) - 1)

/-- Constant `a6 = (1 - gama) * dt` -/
def c6 (s : NewmarkIn n) : ℝ := (1 - s.gama) * s.dt

/-- Constant `a7 = gama * dt` -/
def c7 (s : NewmarkIn n) : ℝ := s.gama * s.dt

/-- Initial acceleration `ao = np.linalg.inv(M) @ (f - C @ vo - K @ uo)` with `f = fext(0)`. -/
def ao (s : NewmarkIn n) : Vec n :=
  s.M⁻¹.mulVec (s.fext 0 - s.C.mulVec s.vo - s.K.mulVec s.uo)

/-- Effective stiffness `Kb = K + a1 * C + a0 * M` (computed once, before the loop). -/
def Kb (s : NewmarkIn n) : Mat n := s.K + s.c1 • s.C + s.c0 • s.M

/-- The `(u, v, a)` columns of `newmark_linear`.  The source writes
`a[:, 0] = ao` and then immediately overwrites it with `a[:, 0] = vo` and
`a[:, 0] = uo` (two apparent typos for `v[:, 0]` and `u[:, 0]`), so column 0
of `a` ends up holding `uo` while columns 0 of `u` and `v` keep the
unspecified `np.empty` contents `eu 0` and `ev 0`.  Columns `i ≥ 1` follow
the loop body. -/
def state (s : NewmarkIn n) : ℕ → Vec n × Vec n × Vec n
  | 0 => (s.eu 0, s.ev 0, s.uo)
  | i + 1 =>
    let prev := s.state i
    let up := prev.1
    let vp := prev.2.1
    let ap := prev.2.2
    let f := s.fext ((arange s.tf s.dt).getD (i + 1) 0)
    let fk1 := f + s.M.mulVec (s.c0 • up + s.c2 • vp + s.c3 • ap)
      + s.C.mulVec (s.c1 • up + s.c4 • vp + s.c5 • ap)
    let uk1 := s.Kb⁻¹.mulVec fk1
    let anew := s.c0 • (uk1 - up) - s.c2 • vp - s.c3 • ap
    let vnew := vp + s.c6 • ap + s.c7 • anew
    (uk1, vnew, anew)

end NewmarkIn

/-- Function `newmark_linear` from `numeric_solutions.py`: half-open time grid and
the displacement / velocity / acceleration columns (column `k` of each
matrix is the function applied to `k`; columns `k ≥` grid length do not
correspond to source columns). -/
def newmark_linear {n : ℕ} (s : NewmarkIn n) :
    List ℝ × (ℕ → Vec n) × (ℕ → Vec n) × (ℕ → Vec n) :=
  let t := arange s.tf s.dt
  (t, fun i => (s.state i).1, fun i => (s.state i).2.1, fun i => (s.state i).2.2)

/-- Argument bundle for `diferencacentral(M, C, K, fext, uo, vo, tf, dt)`
from `numeric_solutions.py`.  (Its `np.empty` arrays need no junk
parameters: every entry within the grid is written before it is read.) -/
structure CentralIn (n : ℕ) where
  M : Mat n
  C : Mat n
  K : Mat n
  fext : ℝ → Vec n
  uo : Vec n
  vo : Vec n
  tf : ℝ
  dt : ℝ

namespace CentralIn

variable {n : ℕ}

/-- Constant `a0 = 1 / (dt ** 2)` -/
def c0 (s : CentralIn n) : ℝ := 1 / s.dt ^ 2

/-- Constant `a1 = 1 / (2 * dt)` -/
def c1 (s : CentralIn n) : ℝ := 1 / (2 * s.dt)

/-- Constant `a2 = 2 * a0` -/
def c2 (s : CentralIn n) : ℝ := 2 * s.c0

/-- Constant `a3 = 1 / a2` -/
def c3 (s : CentralIn n) : ℝ := 1 / s.c2

/-- Initial acceleration `ao = np.linalg.inv(M) @ (f - C @ vo - K @ uo)` with `f = fext(0)`. -/
def ao (s : CentralIn n) : Vec n :=
  s.M⁻¹.mulVec (s.fext 0 - s.C.mulVec s.vo - s.K.mulVec s.uo)

/-- Fictitious displacement `u_1 = uo - dt * vo + a3 * ao` (fictitious prior-step displacement,
computed before the loop). -/
def u1init (s : CentralIn n) : Vec n := s.uo - s.dt • s.vo + s.c3 • s.ao

/-- Effective stiffness `Kb = a1 * C + a0 * M` (computed once, before the loop). -/
def Kb (s : CentralIn n) : Mat n := s.c1 • s.C + s.c0 • s.M

/-- The effective force of loop step `i`:
`fk1 = f - (a0 * M - a1 * C) @ u_1 - (K - a2 * M) @ u[:, i-1]`. -/
def fk1 (s : CentralIn n) (f uPrev u_1 : Vec n) : Vec n :=
  f - (s.c0 • s.M - s.c1 • s.C).mulVec u_1 - (s.K - s.c2 • s.M).mulVec uPrev

/-- State after loop iteration `i` of `diferencacentral`: the pair
`(u[:, i], u_1)` where `u_1` is the value of the source's rolling variable
`u_1` after the `u_1 = u[:, i - 1]` update (for `i = 0`: before the loop,
`(uo, u1init)`). -/
def state (s : CentralIn n) : ℕ → Vec n × Vec n
  | 0 => (s.uo, s.u1init)
  | i + 1 =>
    let prev := s.state i
    let uPrev := prev.1
    let u_1 := prev.2
    let f := s.fext ((arange s.tf s.dt).getD (i + 1) 0)
    let uk1 := s.Kb⁻¹.mulVec (s.fk1 f uPrev u_1)
    (uk1, uPrev)

end CentralIn

/-- Function `diferencacentral` from `numeric_solutions.py`: half-open time grid and
the displacement / velocity / acceleration columns.  `v[:, 0] = vo` and
`a[:, 0] = ao` are assigned before the loop; for `i ≥ 1` the loop sets
`v[:, i] = a1 * (u[:, i] - u_1)` and
`a[:, i] = a0 * (u[:, i] - 2 * u[:, i-1] + u_1)` with `u_1` the rolling
prior-prior displacement in effect during iteration `i`. -/
def diferencacentral {n : ℕ} (s : CentralIn n) :
    List ℝ × (ℕ → Vec n) × (ℕ → Vec n) × (ℕ → Vec n) :=
  let t := arange s.tf s.dt
  let u := fun i => (s.state i).1
  let v := fun i => if i = 0 then s.vo else
    s.c1 • ((s.state i).1 - (s.state (i - 1)).2)
  let a := fun i => if i = 0 then s.ao else
    s.c0 • ((s.state i).1 - (2 : ℝ) • (s.state (i - 1)).1 + (s.state (i - 1)).2)
  (t, u, v, a)

section ArangeLemmas

lemma arange_length (stop step : ℝ) :
    (arange stop step).length = ⌈stop / step⌉₊ := by
  rw [arange, List.length_map, List.length_range]

lemma arange_getD (stop step : ℝ) (k : ℕ) (hk : k < ⌈stop / step⌉₊) :
    (arange stop step).getD k 0 = (k : ℝ) * step := by
  have hlen : k < (arange stop step).length := by
    simpa only [arange_length] using hk
  rw [List.getD_eq_getElem?_getD, List.getElem?_eq_getElem hlen]
  simp only [arange, List.getElem_map, List.getElem_range, Option.getD_some]

lemma arange_mem_lt (stop step : ℝ) (hstop : 0 < stop) (hstep : 0 < step) :
    ∀ x ∈ arange stop step, x < stop := by
  intro x hx
  rw [arange, List.mem_map] at hx
  obtain ⟨k, hk, rfl⟩ := hx
  rw [List.mem_range] at hk
  have hk' : (k : ℝ) < stop / step := Nat.lt_ceil.mp hk
  calc (k : ℝ) * step < (stop / step) * step :=
        mul_lt_mul_of_pos_right hk' hstep
    _ = stop := div_mul_cancel₀ stop hstep.ne'

lemma div_div_self_nat (T : ℝ) (hT : T ≠ 0) (N : ℕ) (hN : N ≠ 0) :
    T / (T / N) = (N : ℝ) := by
  have hN' : (N : ℝ) ≠ 0 := Nat.cast_ne_zero.mpr hN
  field_simp

lemma arange_uniform_length (T : ℝ) (hT : 0 < T) (N : ℕ) (hN : 0 < N) :
    (arange T (T / N)).length = N := by
  rw [arange_length, div_div_self_nat T hT.ne' N hN.ne', Nat.ceil_natCast]

end ArangeLemmas

/-- C2. For every `sim_time T > 0` and `num_steps N > 0`, the time grid
used (and returned) by every `modal_superposition` entry point has length
exactly `N` and values `t_k = k * (T / N)` for `k = 0 .. N-1`, with every
sample strictly less than `T`; both direct integrators return the grid
`arange tf dt` whose values are `k * dt`, all strictly less than `tf`. -/
theorem C2_time_grid (T : ℝ) (hT : 0 < T) (N : ℕ) (hN : 0 < N)
    (tf dt : ℝ) (htf : 0 < tf) (hdt : 0 < dt) :
    (arange T (T / N)).length = N
    ∧ (∀ k, k < N → (arange T (T / N)).getD k 0 = (k : ℝ) * (T / N))
    ∧ (∀ x ∈ arange T (T / N), x < T)
    ∧ (∀ {n : ℕ} (h : Harmonic) (eigh : EighResult n) (M C K : Mat n)
        (u0 v0 fo : Vec n),
        resultGrid (h.modal_superposition eigh M C K u0 v0 fo T N) =
          arange T (T / N))
    ∧ (∀ {n : ℕ} (p : Impulsive) (eigh : EighResult n) (M K : Mat n)
        (u0 fo : Vec n),
        resultGrid (p.modal_superposition eigh M K u0 fo T N) =
          arange T (T / N))
    ∧ (∀ {n : ℕ} (r : Ramp) (eigh : EighResult n) (M K : Mat n) (fo : Vec n),
        resultGrid (r.modal_superposition eigh M K fo T N) = arange T (T / N))
    ∧ (∀ {n : ℕ} (s : NewmarkIn n), s.tf = tf → s.dt = dt →
        (newmark_linear s).1 = arange tf dt)
    ∧ (∀ {n : ℕ} (s : CentralIn n), s.tf = tf → s.dt = dt →
        (diferencacentral s).1 = arange tf dt)
    ∧ (∀ k, k < (arange tf dt).length → (arange tf dt).getD k 0 = (k : ℝ) * dt)
    ∧ (∀ x ∈ arange tf dt, x < tf) := by
  have hNr : (0 : ℝ) < (N : ℝ) := Nat.cast_pos.mpr hN
  refine ⟨arange_uniform_length T hT N hN, ?_, arange_mem_lt T (T / N) hT
    (div_pos hT hNr), fun _ _ _ _ _ _ _ _ => rfl, fun _ _ _ _ _ _ => rfl,
    fun _ _ _ _ _ => rfl, ?_, ?_, ?_, arange_mem_lt tf dt htf hdt⟩
  · intro k hk
    refine arange_getD T (T / N) k ?_
    rw [div_div_self_nat T hT.ne' N hN.ne', Nat.ceil_natCast]
    exact hk
  · intro n s h1 h2
    rw [newmark_linear, h1, h2]
  · intro n s h1 h2
    rw [diferencacentral, h1, h2]
  · intro k hk
    exact arange_getD tf dt k (by rwa [arange_length] at hk)

/-- Closed-form instance of `C2_time_grid` at `T = 1`, `N = 2`,
`tf = 1`, `dt = 1`. -/
theorem C2_time_grid_witness :
    (arange 1 (1 / ((2 : ℕ) : ℝ))).length = 2 :=
  (C2_time_grid 1 one_pos 2 (by norm_num) 1 1 one_pos one_pos).1

section PartitionLemmas

lemma filter_le_append_filter_gt (c : ℝ) (t : List ℝ) (ht : t.Sorted (· ≤ ·)) :
    (t.filter fun x => decide (x ≤ c)) ++ (t.filter fun x => decide (c < x)) = t := by
  have hfun : (fun x : ℝ => !decide (x ≤ c)) = fun x : ℝ => decide (c < x) := by
    funext x
    by_cases hx : x ≤ c
    · simp [hx, not_lt.mpr hx]
    · simp [hx, not_le.mp hx]
  have hperm : List.Perm
      ((t.filter fun x => decide (x ≤ c)) ++ (t.filter fun x => decide (c < x)))
      t := by
    rw [← hfun]
    exact List.filter_append_perm _ t
  refine List.eq_of_perm_of_sorted hperm ?_ ht
  rw [List.Sorted, List.pairwise_append]
  refine ⟨ht.filter _, ht.filter _, ?_⟩
  intro a ha b hb
  have ha' : a ≤ c := by simpa using (List.mem_filter.mp ha).2
  have hb' : c < b := by simpa using (List.mem_filter.mp hb).2
  exact ha'.trans hb'.le

lemma piecewise_concat_eq_map (c : ℝ) (f1 f2 : ℝ → ℝ) (t : List ℝ)
    (ht : t.Sorted (· ≤ ·)) :
    ((t.filter fun x => decide (x ≤ c)).map f1)
        ++ ((t.filter fun x => decide (c < x)).map f2)
      = t.map fun x => if x ≤ c then f1 x else f2 x := by
  conv_rhs => rw [← filter_le_append_filter_gt c t ht]
  rw [List.map_append]
  congr 1
  · refine (List.map_congr_left ?_).symm
    intro a ha
    have ha' : a ≤ c := by simpa using (List.mem_filter.mp ha).2
    rw [if_pos ha']
  · refine (List.map_congr_left ?_).symm
    intro a ha
    have ha' : c < a := by simpa using (List.mem_filter.mp ha).2
    rw [if_neg (not_le.mpr ha')]

end PartitionLemmas

/-- C5. `Impulsive.response` and `Ramp.response` split the grid with
`t <= td` (resp. `t <= tr`) against `t > td` (resp. `t > tr`) — the
boundary sample goes to the first branch — evaluate one closed-form branch
on each subset, and concatenate; on a sorted grid the two filters exactly
partition the grid (their concatenation is the grid itself), the result is
the pointwise piecewise evaluation in time order, and it has exactly
`t.length` entries. -/
theorem C5_response_partition (p : Impulsive) (r : Ramp) (Kp Fp om : ℝ)
    (t : List ℝ) (ht : t.Sorted (· ≤ ·)) :
    ((t.filter fun x => decide (x ≤ p.td))
        ++ (t.filter fun x => decide (p.td < x)) = t)
    ∧ ((t.filter fun x => decide (x ≤ r.tr))
        ++ (t.filter fun x => decide (r.tr < x)) = t)
    ∧ p.response Kp Fp om t = t.map (fun x =>
        if x ≤ p.td then (Fp / Kp) * (1 - Real.cos (om * x))
        else (Fp / Kp) * ((1 - Real.cos (om * p.td)) * Real.cos (om * (x - p.td))
          + Real.sin (om * p.td) * Real.sin (om * (x - p.td))))
    ∧ r.response Kp Fp om t = t.map (fun x =>
        if x ≤ r.tr then (Fp / Kp) * ((x / r.tr) - (1 / (om * r.tr)) * Real.sin (om * x))
        else (Fp / Kp) * (1 + (1 / (om * r.tr)) *
          (Real.sin (om * (x - r.tr)) - Real.sin (om * x))))
    ∧ (p.response Kp Fp om t).length = t.length
    ∧ (r.response Kp Fp om t).length = t.length := by
  have hp := piecewise_concat_eq_map p.td
    (fun x => (Fp / Kp) * (1 - Real.cos (om * x)))
    (fun x => (Fp / Kp) * ((1 - Real.cos (om * p.td)) * Real.cos (om * (x - p.td))
      + Real.sin (om * p.td) * Real.sin (om * (x - p.td)))) t ht
  have hr := piecewise_concat_eq_map r.tr
    (fun x => (Fp / Kp) * ((x / r.tr) - (1 / (om * r.tr)) * Real.sin (om * x)))
    (fun x => (Fp / Kp) * (1 + (1 / (om * r.tr)) *
      (Real.sin (om * (x - r.tr)) - Real.sin (om * x)))) t ht
  refine ⟨filter_le_append_filter_gt p.td t ht,
    filter_le_append_filter_gt r.tr t ht, hp, hr, ?_, ?_⟩
  · rw [Impulsive.response]
    rw [hp, List.length_map]
  · rw [Ramp.response]
    rw [hr, List.length_map]

/-- Closed-form instance of `C5_response_partition` on the sorted grid
`[0, 2]` with `td = tr = 1`: the split exactly reassembles the grid. -/
theorem C5_response_partition_witness :
    ([(0 : ℝ), 2].filter fun x => decide (x ≤ (⟨1, 1⟩ : Impulsive).td))
        ++ ([(0 : ℝ), 2].filter fun x => decide ((⟨1, 1⟩ : Impulsive).td < x))
      = [(0 : ℝ), 2] :=
  (C5_response_partition ⟨1, 1⟩ ⟨1, 1⟩ 1 1 1 [0, 2]
    (by simp [List.Sorted, List.pairwise_cons])).1

/-- C8. The three load functions: `Harmonic.load t = fo * cos (omega
* t)`; `Impulsive.load t` is `fo` for `t ≤ td` (the boundary included) and
`0` after; `Ramp.load t` is `fo * t / tr` for `t ≤ tr` and `fo` after, and
(for `tr ≠ 0`) it is continuous at `tr`. -/
theorem C8_loads (h : Harmonic) (p : Impulsive) (r : Ramp) (t : ℝ)
    (htr : r.tr ≠ 0) :
    h.load t = h.fo * Real.cos (h.omega * t)
    ∧ p.load t = (if t ≤ p.td then p.fo else 0)
    ∧ p.load p.td = p.fo
    ∧ r.load t = (if t ≤ r.tr then r.fo * t / r.tr else r.fo)
    ∧ ContinuousAt r.load r.tr := by
  have hmin : r.load = fun x => r.fo * min x r.tr / r.tr := by
    funext x
    rw [Ramp.load]
    by_cases hx : x ≤ r.tr
    · rw [if_pos hx, min_eq_left hx]
    · rw [if_neg hx, min_eq_right (le_of_not_le hx), mul_div_assoc,
        div_self htr, mul_one]
  refine ⟨rfl, ?_, ?_, rfl, ?_⟩
  · rw [Impulsive.load]
    split <;> simp
  · simp [Impulsive.load]
  · rw [hmin]
    exact ((continuous_const.mul
      (continuous_id.min continuous_const)).div_const _).continuousAt

/-- Closed-form instance of `C8_loads`: the impulsive load at its boundary
`t = td` (here `td = 1`, `fo = 1`) equals the full amplitude. -/
theorem C8_loads_witness : (⟨1, 1⟩ : Impulsive).load 1 = 1 :=
  (C8_loads ⟨1, 1⟩ ⟨1, 1⟩ ⟨1, 1⟩ 0 (by norm_num)).2.2.1

/-- C10. `Impulsive.modal_superposition` ignores its `u0` argument:
two calls differing only in `u0` return identical results. -/
theorem C10_impulsive_ignores_u0 {n : ℕ} (p : Impulsive)
    (eigh : EighResult n) (M K : Mat n) (u0 u0' fo : Vec n)
    (sim_time : ℝ) (num_steps : ℕ) :
    p.modal_superposition eigh M K u0 fo sim_time num_steps =
      p.modal_superposition eigh M K u0' fo sim_time num_steps := rfl

section MatrixOneLemmas

lemma fin_one_inv (A : Mat 1) : A⁻¹ = Ring.inverse (A 0 0) • 1 := by
  rw [Matrix.inv_def, Matrix.adjugate_fin_one, Matrix.det_fin_one]

lemma fin_one_inv_mulVec (A : Mat 1) (v : Vec 1) :
    A⁻¹.mulVec v = Ring.inverse (A 0 0) • v := by
  rw [fin_one_inv, Matrix.smul_mulVec_assoc, Matrix.one_mulVec]

lemma one_inv_mulVec (v : Vec 1) : ((1 : Mat 1)⁻¹).mulVec v = v := by
  rw [fin_one_inv_mulVec, Matrix.one_apply_eq, Ring.inverse_one, one_smul]

end MatrixOneLemmas

/-- C6. In `diferencacentral`, the fictitious prior-step displacement
is `u₋₁ = u0 - dt·v0 + (dt²/2)·a0`, the effective operator is
`Kb = (1/dt²)·M + (1/(2dt))·C` (a single definition fixed before the loop),
and every loop step solves against this same `Kb`. -/
theorem C6_central_difference_setup {n : ℕ} (s : CentralIn n)
    (hdt : 0 < s.dt) :
    s.u1init = s.uo - s.dt • s.vo + (s.dt ^ 2 / 2) • s.ao
    ∧ s.Kb = (1 / s.dt ^ 2) • s.M + (1 / (2 * s.dt)) • s.C
    ∧ ∀ i : ℕ, (diferencacentral s).2.1 (i + 1) =
        s.Kb⁻¹.mulVec (s.fk1 (s.fext ((arange s.tf s.dt).getD (i + 1) 0))
          ((diferencacentral s).2.1 i) ((s.state i).2)) := by
  have h1 : s.dt ≠ 0 := hdt.ne'
  have hc3 : s.c3 = s.dt ^ 2 / 2 := by
    rw [CentralIn.c3, CentralIn.c2, CentralIn.c0]
    field_simp
  refine ⟨?_, ?_, fun i => rfl⟩
  · rw [CentralIn.u1init, hc3]
  · rw [CentralIn.Kb, CentralIn.c0, CentralIn.c1, add_comm]

/-- A concrete 1-DOF central-difference input: `M = [1]`, `C = [0]`,
`K = [1]`, `fext ≡ 0`, `uo = [5]`, `vo = [7]`, `tf = 2`, `dt = 1`. -/
def centralArgs : CentralIn 1 :=
  ⟨1, 0, 1, fun _ => 0, fun _ => 5, fun _ => 7, 2, 1⟩

/-- Closed-form instance of `C6_central_difference_setup` at `centralArgs`
(`dt = 1`): the effective operator identity. -/
theorem C6_central_difference_setup_witness :
    centralArgs.Kb = (1 / (1 : ℝ) ^ 2) • centralArgs.M
      + (1 / (2 * (1 : ℝ))) • centralArgs.C :=
  (C6_central_difference_setup centralArgs (by norm_num [centralArgs])).2.1

/-- Concrete Newmark input with nonzero initial displacement: `M = [1]`,
`C = [0]`, `K = [1]`, `fext ≡ 0`, `uo = [5]`, `vo = [7]`, `tf = 2`,
`dt = 1`, `gama = 1/2`, `beta = 1/4`, all `np.empty` contents zero. -/
def newmarkArgsC : NewmarkIn 1 :=
  ⟨1, 0, 1, fun _ => 0, fun _ => 5, fun _ => 7, 2, 1, 1 / 2, 1 / 4,
   fun _ _ => 0, fun _ _ => 0, fun _ _ => 0⟩

/-- C1 (code-bug evidence).  `diferencacentral` does set column 0 of
its displacement, velocity, and acceleration outputs to `uo`, `vo`, `ao`.
But in `newmark_linear` the source assigns `a[:, 0]` three times in a row
(`a[:, 0] = ao`, `a[:, 0] = vo`, `a[:, 0] = uo`), so column 0 of its
acceleration output holds `uo`, not the initial acceleration `ao`
(and columns 0 of `u`, `v` stay uninitialized): at `newmarkArgsC`
(`uo = [5]`, `ao = [-5]`) the two differ. -/
theorem C1_initial_columns :
    (∀ {n : ℕ} (s : CentralIn n),
      (diferencacentral s).2.1 0 = s.uo
      ∧ (diferencacentral s).2.2.1 0 = s.vo
      ∧ (diferencacentral s).2.2.2 0 = s.ao)
    ∧ (newmark_linear newmarkArgsC).2.2.2 0 = newmarkArgsC.uo
    ∧ newmarkArgsC.ao 0 = -5
    ∧ (newmark_linear newmarkArgsC).2.2.2 0 0 ≠ newmarkArgsC.ao 0 := by
  have hao : newmarkArgsC.ao 0 = -5 := by
    rw [NewmarkIn.ao]
    simp only [newmarkArgsC]
    rw [Matrix.zero_mulVec, Matrix.one_mulVec, one_inv_mulVec]
    norm_num
  have h5 : (newmark_linear newmarkArgsC).2.2.2 0 0 = 5 := rfl
  refine ⟨fun s => ⟨rfl, rfl, rfl⟩, rfl, hao, ?_⟩
  rw [h5, hao]
  norm_num

/-- Newmark input whose `np.empty` arrays start out all zero:
`M = [1]`, `C = [0]`, `K = [0]`, `fext ≡ 0`, `uo = vo = [0]`, `tf = 2`,
`dt = 1`, `gama = 1/2`, `beta = 1/4`. -/
def newmarkArgsA : NewmarkIn 1 :=
  ⟨1, 0, 0, fun _ => 0, fun _ => 0, fun _ => 0, 2, 1, 1 / 2, 1 / 4,
   fun _ _ => 0, fun _ _ => 0, fun _ _ => 0⟩

/-- Same source-visible arguments as `newmarkArgsA`, but the `np.empty`
array backing `u` starts out holding 1 instead of 0. -/
def newmarkArgsB : NewmarkIn 1 :=
  ⟨1, 0, 0, fun _ => 0, fun _ => 0, fun _ => 0, 2, 1, 1 / 2, 1 / 4,
   fun _ _ => 1, fun _ _ => 0, fun _ _ => 0⟩

/-- C7 (code-bug evidence).  `newmarkArgsA` and `newmarkArgsB` agree on
every argument of the source function `newmark_linear` (they differ only
in the unspecified contents of its `np.empty` arrays, which are not
arguments of the Python function), yet the returned displacement at step 1
differs: the output depends on uninitialized memory, so two calls with
identical arguments need not return identical results. -/
theorem C7_newmark_depends_on_empty_contents :
    newmarkArgsA.M = newmarkArgsB.M ∧ newmarkArgsA.C = newmarkArgsB.C
    ∧ newmarkArgsA.K = newmarkArgsB.K
    ∧ newmarkArgsA.fext = newmarkArgsB.fext
    ∧ newmarkArgsA.uo = newmarkArgsB.uo ∧ newmarkArgsA.vo = newmarkArgsB.vo
    ∧ newmarkArgsA.tf = newmarkArgsB.tf ∧ newmarkArgsA.dt = newmarkArgsB.dt
    ∧ newmarkArgsA.gama = newmarkArgsB.gama
    ∧ newmarkArgsA.beta = newmarkArgsB.beta
    ∧ (newmark_linear newmarkArgsA).2.1 1 0 = 0
    ∧ (newmark_linear newmarkArgsB).2.1 1 0 = 1 := by
  have hA : (newmark_linear newmarkArgsA).2.1 1 0 = 0 := by
    show (newmarkArgsA.state 1).1 0 = 0
    simp [NewmarkIn.state, newmarkArgsA, Matrix.mulVec_zero,
      Matrix.zero_mulVec, show (fun _ : Fin 1 => (0 : ℝ)) = 0 from rfl]
  have hB : (newmark_linear newmarkArgsB).2.1 1 0 = 1 := by
    show (newmarkArgsB.state 1).1 0 = 1
    simp [NewmarkIn.state, newmarkArgsB, NewmarkIn.Kb, NewmarkIn.c0,
      NewmarkIn.c1, NewmarkIn.c2, NewmarkIn.c3, NewmarkIn.c4, NewmarkIn.c5,
      Matrix.mulVec_zero, Matrix.zero_mulVec, Matrix.one_mulVec,
      fin_one_inv_mulVec, Matrix.smul_apply, Matrix.one_apply_eq,
      Ring.inverse_eq_inv]
  exact ⟨rfl, rfl, rfl, rfl, rfl, rfl, rfl, rfl, rfl, rfl, hA, hB⟩

/-- The result is a normal return (the call did not fail). -/
def isOkResult {n : ℕ} : Except SimError (List ℝ × (Fin n → ℕ → ℝ)) → Prop
  | .ok _ => True
  | .error _ => False

/-- The eigensolver output for `K = [-1]`, `M = [1]`: eigenvalue `-1` with
(M-normalized) eigenvector `[1]`. -/
def eighNeg : EighResult 1 := ⟨fun _ => -1, 1⟩

/-- C3 (counterexample).  With `K = [-1]`, `M = [1]` the generalized
eigenproblem genuinely has the negative eigenvalue `-1`
(`K·Φ = M·Φ·Λ` holds), yet `Harmonic.modal_superposition` returns a
normal result instead of failing with `InvalidSystemError`: the source
performs no eigenvalue sign check and raises nothing. -/
theorem C3_negative_eigenvalue_counterexample :
    eighNeg.omega2 0 = -1
    ∧ (-(1 : Mat 1)) * eighNeg.phi
        = (1 : Mat 1) * eighNeg.phi * Matrix.diagonal eighNeg.omega2
    ∧ isOkResult ((⟨1, 1⟩ : Harmonic).modal_superposition eighNeg
        1 0 (-(1 : Mat 1)) 0 0 (fun _ => 1) 1 1) := by
  refine ⟨rfl, ?_, trivial⟩
  ext i j
  fin_cases i
  fin_cases j
  simp [eighNeg, Matrix.diagonal]

/-- C3 (amended).  No `modal_superposition` entry point ever fails:
each one returns a normal result on every input, including inputs whose
eigenvalues are negative (where the natural frequency `sqrt λ` is not a
real number in the source — numpy produces NaN — and the embedding takes
`Real.sqrt`'s junk value). -/
theorem C3_modal_superposition_never_fails :
    (∀ {n : ℕ} (h : Harmonic) (eigh : EighResult n) (M C K : Mat n)
      (u0 v0 fo : Vec n) (T : ℝ) (N : ℕ),
      isOkResult (h.modal_superposition eigh M C K u0 v0 fo T N))
    ∧ (∀ {n : ℕ} (p : Impulsive) (eigh : EighResult n) (M K : Mat n)
      (u0 fo : Vec n) (T : ℝ) (N : ℕ),
      isOkResult (p.modal_superposition eigh M K u0 fo T N))
    ∧ (∀ {n : ℕ} (r : Ramp) (eigh : EighResult n) (M K : Mat n)
      (fo : Vec n) (T : ℝ) (N : ℕ),
      isOkResult (r.modal_superposition eigh M K fo T N)) :=
  ⟨fun _ _ _ _ _ _ _ _ _ _ => trivial, fun _ _ _ _ _ _ _ _ => trivial,
   fun _ _ _ _ _ _ _ => trivial⟩

/-- The eigensolver output for `K = [100]`, `M = [1]`: eigenvalue `100`
with eigenvector `[s]`; `s = ±1` covers the backend's sign freedom for an
M-normalized eigenvector. -/
def eighC4 (s : ℝ) : EighResult 1 := ⟨fun _ => 100, Matrix.of fun _ _ => s⟩

/-- The stiffness matrix `K = [100]` of the concrete C4 scenario. -/
def K100 : Mat 1 := Matrix.of fun _ _ => 100

/-- The displacement matrix of an `Except`-wrapped modal-superposition
result (zero on an error, which the source never produces). -/
def resultU {n : ℕ} :
    Except SimError (List ℝ × (Fin n → ℕ → ℝ)) → Fin n → ℕ → ℝ
  | .ok r => r.2
  | .error _ => fun _ _ => 0

/-- The concrete C4 scenario call: `n = 1`, `M = [1]`, `C = [0]`,
`K = [100]`, `u0 = v0 = [0]`, `Harmonic(fo = 10, ω = 5)`, force vector
`[10]`, `sim_time = 2`, `num_steps = 200`, eigenvector sign `s`. -/
def c4call (s : ℝ) : Except SimError (List ℝ × (Fin 1 → ℕ → ℝ)) :=
  (⟨10, 5⟩ : Harmonic).modal_superposition (eighC4 s) 1 0 K100 0 0
    (fun _ => 10) 2 200

lemma sqrt_hundred : Real.sqrt 100 = 10 := by
  rw [show (100 : ℝ) = 10 ^ 2 by norm_num,
    Real.sqrt_sq (by norm_num : (0 : ℝ) ≤ 10)]

lemma response_c4 (s t : ℝ) :
    Harmonic.response ⟨10, 5⟩ 10 0 0 0 (s * 10) t
      = s * (2 / 15) * (Real.cos (5 * t) - Real.cos (10 * t)) := by
  simp only [Harmonic.response]
  norm_num [sqrt_hundred, Real.exp_zero]
  ring

lemma c4call_u (s : ℝ) (k : ℕ) :
    resultU (c4call s) 0 k
      = s * Harmonic.response ⟨10, 5⟩ (Real.sqrt 100) 0 0 0 (s * 10)
          ((arange 2 (2 / ((200 : ℕ) : ℝ))).getD k 0) := by
  simp only [c4call, Harmonic.modal_superposition, resultU]
  simp [eighC4, K100, Matrix.mulVec, Matrix.dotProduct, Matrix.transpose_apply,
    Matrix.of_apply, Fin.sum_univ_one, Matrix.mul_apply, Matrix.diag,
    Matrix.mul_zero, Matrix.zero_mul, Matrix.mulVec_zero]

/-- C4. In the concrete scenario (`n = 1`, `M = [1]`, `K = [100]`,
`C = [0]`, `u0 = v0 = [0]`, `Harmonic(fo = 10, ω = 5)`, `sim_time = 2`,
`num_steps = 200`), the displacement returned by
`Harmonic.modal_superposition` at every time sample `t_k` is within `1e-6`
of `(10 / (100 - 25)) * (cos (5 t_k) - cos (10 t_k))`, for either sign `s`
of the backend's eigenvector. -/
theorem C4_harmonic_concrete (s : ℝ) (hs : s = 1 ∨ s = -1) (k : ℕ)
    (hk : k < 200) :
    |resultU (c4call s) 0 k
      - 10 / (100 - 25) * (Real.cos (5 * ((resultGrid (c4call s)).getD k 0))
        - Real.cos (10 * ((resultGrid (c4call s)).getD k 0)))| ≤ 1e-6 := by
  have hs2 : s * s = 1 := by
    rcases hs with h | h <;> rw [h] <;> norm_num
  have hgridrfl : resultGrid (c4call s) = arange 2 (2 / ((200 : ℕ) : ℝ)) := rfl
  have hu := c4call_u s k
  rw [sqrt_hundred, response_c4] at hu
  rw [hgridrfl, hu]
  have hzero : ∀ X : ℝ, s * (s * (2 / 15) * X) - 10 / (100 - 25) * X = 0 :=
    fun X => by linear_combination (2 / 15 * X) * hs2
  rw [hzero, abs_zero]
  norm_num

/-- Closed-form instance of `C4_harmonic_concrete` at `s = 1`, `k = 0`. -/
theorem C4_harmonic_concrete_witness :
    |resultU (c4call 1) 0 0
      - 10 / (100 - 25) * (Real.cos (5 * ((resultGrid (c4call 1)).getD 0 0))
        - Real.cos (10 * ((resultGrid (c4call 1)).getD 0 0)))| ≤ 1e-6 :=
  C4_harmonic_concrete 1 (Or.inl rfl) 0 (by norm_num)

end Dinamica

end
